import Mathlib

/-!
Verification of the rotation engine and multi-boundary container.

Shallow embedding of the core of the `dynamic_obstacle_avoidance` repository:

* `rotate_direction`, `VectorRotationXd`, `VectorRotationSequence` and the
  weight-propagation pass of `VectorRotationTree.get_weighted_mean`, all from
  `dynamic_obstacle_avoidance/rotational/tests/test_general_rotation.py`
  (that file carries the class definitions themselves);
* `MultiBoundaryContainer` bookkeeping (`append`, `check_collision`,
  `update_relative_reference_point`) from
  `src/dynamic_obstacle_avoidance/obstacles/multiboundary_container.py`.

Real-valued geometry is embedded over `ℝ` (floats are modelled as exact reals,
`math.atan2` as `Complex.arg`); the container bookkeeping, whose claims only
compare externally supplied gamma values against rational thresholds, is
embedded over `ℚ` so that it stays executable.
-/

set_option maxHeartbeats 1600000

/-! ## Multi-boundary container: collision check

`MultiBoundaryContainer.check_collision(position)` iterates the obstacles once;
a non-boundary obstacle with `gamma < 1` returns `True` immediately, boundary
gammas are accumulated and at the end the call returns `all(gammas ≤ 1)`.
An obstacle is modelled by its `is_boundary` flag together with the gamma value
that `get_gamma` returns at the queried position (an external capability). -/

structure ObstacleAt where
  is_boundary : Bool
  gamma : ℚ

/-- The loop body of `check_collision`: `acc` is `gamma_list_boundary`. -/
def check_collision_loop : List ObstacleAt → List ℚ → Bool
  | [], acc => acc.all (fun g => decide (g ≤ 1))
  | o :: rest, acc =>
    if o.is_boundary then check_collision_loop rest (acc ++ [o.gamma])
    else if o.gamma < 1 then true
    else check_collision_loop rest acc

/-- Embeds `MultiBoundaryContainer.check_collision`, lines 101–119 of
`multiboundary_container.py`, evaluated on the per-obstacle gamma values at the
queried position. -/
def check_collision (obstacles : List ObstacleAt) : Bool :=
  check_collision_loop obstacles []

/-! ## Multi-boundary container: graph bookkeeping (`append` etc.)

Only the parent/children bookkeeping matters for the linking claims, so the
container state is the `_parent_array` / `_children_list` pair; `n_obstacles`
(the length of the obstacle list, kept in lockstep by `append`) is the length
of `_parent_array`. -/

structure MBContainer where
  parent_array : List ℤ
  children_list : List (List ℕ)

def MBContainer.n_obstacles (s : MBContainer) : ℕ := s.parent_array.length

/-- Embeds `MultiBoundaryContainer.set_parent`. -/
def MBContainer.set_parent (s : MBContainer) (it : ℕ) (parent : ℤ) : MBContainer :=
  ⟨s.parent_array.set it parent, s.children_list⟩

/-- Embeds `MultiBoundaryContainer.add_children` (with a one-element children list,
as `extend_graph` calls it). -/
def MBContainer.add_children (s : MBContainer) (it : ℕ) (children : List ℕ) : MBContainer :=
  ⟨s.parent_array, s.children_list.set it (s.children_list.getD it [] ++ children)⟩

/-- Embeds `MultiBoundaryContainer.extend_graph`. -/
def MBContainer.extend_graph (s : MBContainer) (child parent : ℕ) : MBContainer :=
  (s.set_parent child (parent : ℤ)).add_children parent [child]

/-- Embeds `MultiBoundaryContainer.append(value, parent=None)`: push a fresh root
entry (`parent = -1`, empty children, no cached intersection), then, when
`parent == -1` was passed, link the new obstacle under the previously appended
one via `extend_graph(child=n_obstacles-1, parent=n_obstacles-2)`. -/
def MBContainer.append (s : MBContainer) (parent : Option ℤ) : MBContainer :=
  let s1 : MBContainer := ⟨s.parent_array ++ [-1], s.children_list ++ [[]]⟩
  match parent with
  | none => s1
  | some p =>
    if p = -1 then s1.extend_graph (s1.n_obstacles - 1) (s1.n_obstacles - 2) else s1

/-! ## Multi-boundary container: relative reference point -/

/-- The blend weight of `update_relative_reference_point`
(`multiboundary_container.py`, lines 163–168):
`weight_1 = dist_point / (dist_boundary_point - dist_point)`,
`weight_2 = gamma_boundary_point - 1`, combined as `1 - 1/(1 + w1*w2)`. -/
def blend_weight (dist_point dist_boundary_point gamma_boundary_point : ℚ) : ℚ :=
  let weight_1 := dist_point / (dist_boundary_point - dist_point)
  let weight_2 := gamma_boundary_point - 1
  1 - 1 / (1 + weight_1 * weight_2)

/-- Maximum taken by `np.max` over the per-neighbour weight array.  The array
is initialised with zeros (`np.zeros(num_close)`), so it always contains `0`
and its maximum equals the fold of `max` with base `0`. -/
def rel_reference_weight (weights : List ℚ) : ℚ := weights.foldr max 0

/-- Tail of the per-obstacle body of `update_relative_reference_point`
(lines 170–179): take the maximal weight; if it exceeds `1` the source raises
`ValueError("Weight greater than 1...")`, otherwise it stores the interpolated
point `w * position + (1 - w) * global_reference_point`. -/
def update_rel_ref (weights : List ℚ) (position reference : List ℚ) :
    Except String (List ℚ) :=
  let m := rel_reference_weight weights
  if 1 < m then .error "Weight greater than 1..."
  else .ok (List.zipWith (fun p r => m * p + (1 - m) * r) position reference)

/-! ## VectorRotationTree: weight propagation

`get_weighted_mean` first resets every node weight to `0`, writes the query
weights into the named nodes, and then runs, over the level-ascending node
order, `for succ_id in successors(node_id): weight[succ_id] += weight[node_id]`.
Weights are rationals (exact floats); node ids are naturals. -/

/-- Steps (a)+(b) of `get_weighted_mean`: `reset_node_weights` followed by
`self._graph.nodes[node]["weight"] = weights[ii]` for the queried nodes. -/
def assign_weights (node_list : List ℕ) (weights : List ℚ) : ℕ → ℚ :=
  (List.zip node_list weights).foldl (fun w p => Function.update w p.1 p.2) (fun _ => 0)

/-- Step (c) of `get_weighted_mean` (lines 211–217): iterate the nodes in
level-ascending order and add each visited node's current weight into each of
its successors' weights. -/
def propagate_node_weights (sorted_nodes : List ℕ) (successors : ℕ → List ℕ)
    (w : ℕ → ℚ) : ℕ → ℚ :=
  sorted_nodes.foldl
    (fun wcur u =>
      (successors u).foldl (fun w2 c => Function.update w2 c (w2 c + w2 u)) wcur)
    w

/-- Successor function of the two-node tree `root 0 → child 1`. -/
def tree2_successors : ℕ → List ℕ := fun u => if u = 0 then [1] else []

/-! ## Real-vector rotation primitives

Vectors are `Fin d → ℝ`; `np.dot`/`LA.norm` become `dotp`/`vnorm`, and
`math.atan2 y x` becomes `Complex.arg ⟨x, y⟩` (identical on all of ℝ², with
`atan2 0 0 = 0` as in numpy). -/

noncomputable section

abbrev Vec (d : ℕ) := Fin d → ℝ

def dotp {d : ℕ} (x y : Vec d) : ℝ := ∑ i, x i * y i

def vnorm {d : ℕ} (x : Vec d) : ℝ := Real.sqrt (dotp x x)

/-- Embeds `x / LA.norm(x)` (the source writes this inline). -/
def vnormalize {d : ℕ} (x : Vec d) : Vec d := fun i => x i / vnorm x

/-- Embeds `math.atan2 y x` as the argument of the complex number `x + y i`. -/
def atan2 (y x : ℝ) : ℝ := Complex.arg ⟨x, y⟩

/-- Embeds `rotate_direction(direction, base, rotation_angle)` from
`test_general_rotation.py` (lines 35–49): normalize the input, project it onto
the two base columns, shift the polar angle of the projection by
`rotation_angle`, rebuild the in-plane part with the original projection
magnitude, and add back the component orthogonal to the base. -/
def rotate_direction {d : ℕ} (base0 base1 direction : Vec d)
    (rotation_angle : ℝ) : Vec d :=
  let u := vnormalize direction
  let p0 := dotp base0 u
  let p1 := dotp base1 u
  let angle := atan2 p1 p0 + rotation_angle
  fun i =>
    (Real.cos angle * base0 i + Real.sin angle * base1 i) * Real.sqrt (p0 ^ 2 + p1 ^ 2)
      + (u i - (p0 * base0 i + p1 * base1 i))

/-- Embeds `rotate_array` (lines 52–75), which applies the identical decomposition to every
column of a direction array sharing one base. -/
def rotate_array {d : ℕ} (base0 base1 : Vec d) (directions : ℕ → Vec d)
    (rotation_angle : ℝ) : ℕ → Vec d :=
  fun j => rotate_direction base0 base1 (directions j) rotation_angle

/-- Embeds `VectorRotationXd` (dataclass with a `[dimension x 2]` base and an angle);
`base0`/`base1` are the two columns `base[:, 0]`, `base[:, 1]`. -/
structure VectorRotationXd (d : ℕ) where
  base0 : Vec d
  base1 : Vec d
  rotation_angle : ℝ

/-- Embeds `VectorRotationXd.from_directions` (lines 482–504).  The two normalization
lines of the source are commented out, so the inputs are used as given;
`dot_prod == -1` raises (modelled by `none`); for `dot_prod < 1` the second
base column is the normalized perpendicular component `vec_rot - vec_init *
dot_prod`, otherwise it is `vec_rot` itself; the angle is `arccos dot_prod`. -/
def VectorRotationXd.from_directions {d : ℕ} (vec_init vec_rot : Vec d) :
    Option (VectorRotationXd d) :=
  let dot_prod := dotp vec_init vec_rot
  if dot_prod = -1 then none
  else if dot_prod < 1 then
    some ⟨vec_init, vnormalize (fun i => vec_rot i - vec_init i * dot_prod),
      Real.arccos dot_prod⟩
  else
    some ⟨vec_init, vec_rot, Real.arccos dot_prod⟩

/-- Embeds `VectorRotationXd.rotate(direction, rot_factor)`. -/
def VectorRotationXd.rotate {d : ℕ} (r : VectorRotationXd d) (direction : Vec d)
    (rot_factor : ℝ) : Vec d :=
  rotate_direction r.base0 r.base1 direction (rot_factor * r.rotation_angle)

/-- Embeds `VectorRotationXd.inverse_rotate(direction)`. -/
def VectorRotationXd.inverse_rotate {d : ℕ} (r : VectorRotationXd d)
    (direction : Vec d) : Vec d :=
  rotate_direction r.base0 r.base1 direction ((-1) * r.rotation_angle)

/-! ## VectorRotationTree.add_node (rotation-limit branch)

`add_node` builds `VectorRotationXd.from_directions(parent.direction,
direction)`; when `rotation_limit` is truthy and `abs(rotation_angle)` exceeds
it, the source evaluates `new_rotation.basis[:, 0]` — but the dataclass field
is named `base`, so Python raises `AttributeError` before any node is stored
or any warning is emitted.  The raise is modelled by `.error`; the parent's
stored direction is supplied directly. -/

def add_node {d : ℕ} (parent_direction direction : Vec d) (rotation_limit : ℝ) :
    Except String (VectorRotationXd d) :=
  match VectorRotationXd.from_directions parent_direction direction with
  | none => .error "Antiparallel vectors"
  | some r =>
    if rotation_limit ≠ 0 ∧ rotation_limit < |r.rotation_angle| then
      .error "AttributeError: basis"
    else
      .ok r

/-! ## VectorRotationSequence

The basis array `basis_array[:, i, 0/1]` is embedded as the pair of functions
`basisA`/`basisB`; indices at or beyond `n_rotations` are junk that no
operation reads. -/

structure VectorRotationSequence (d : ℕ) where
  n_rotations : ℕ
  basisA : ℕ → Vec d
  basisB : ℕ → Vec d
  angles : ℕ → ℝ

/-- Embeds `VectorRotationSequence.__init__` (lines 388–404) on an array of `m`
column vectors: normalize the columns, take consecutive dot products (raising
— `none` — when any equals `-1`), and store per consecutive pair the basis
(previous column, normalized perpendicular component) and `arccos` angle. -/
def VectorRotationSequence.fromVectors (d m : ℕ) (v : ℕ → Vec d) :
    Option (VectorRotationSequence d) :=
  let nv : ℕ → Vec d := fun i => vnormalize (v i)
  let dp : ℕ → ℝ := fun i => dotp (nv i) (nv (i + 1))
  if ∃ i ∈ Finset.range (m - 1), dp i = -1 then none
  else
    some ⟨m - 1, fun i => nv i,
      fun i => vnormalize (fun j => nv (i + 1) j - nv i j * dp i),
      fun i => Real.arccos (dp i)⟩

/-- One iteration `ii` of the top-down basis-adjustment loop of
`rotate_weighted`: re-rotate every later basis slice `temp_base[:, ii+1:, :]`
(both columns, via `rotate_array`) around the basis at `ii` by the unkept
fraction `angles[ii] * (1 - cumulated_weights[ii])` of that rotation. -/
def seq_step {d : ℕ} (n : ℕ) (angles cum : ℕ → ℝ)
    (B : (ℕ → Vec d) × (ℕ → Vec d)) (ii : ℕ) : (ℕ → Vec d) × (ℕ → Vec d) :=
  (fun jj => if ii < jj ∧ jj < n then
      rotate_array (B.1 ii) (B.2 ii) B.1 (angles ii * (1 - cum ii)) jj
    else B.1 jj,
   fun jj => if ii < jj ∧ jj < n then
      rotate_array (B.1 ii) (B.2 ii) B.2 (angles ii * (1 - cum ii)) jj
    else B.2 jj)

/-- Embeds `VectorRotationSequence.rotate_weighted(direction, weights)` (lines
428–465): backward-cumulated weights, angles scaled by them, a top-down pass
(`for ii in reversed(range(n_rotations - 1))`) re-rotating every later basis
by the unkept fraction of each earlier rotation, then the bottom-to-top
application of `rotate_direction`.  The `weights is None` branch and the
non-fatal not-summing-to-one warning are not modelled. -/
def VectorRotationSequence.rotate_weighted {d : ℕ} (S : VectorRotationSequence d)
    (direction : Vec d) (weights : ℕ → ℝ) : Vec d :=
  let n := S.n_rotations
  let cum : ℕ → ℝ := fun i => ∑ j ∈ Finset.Ico i n, weights j
  let tempAngle : ℕ → ℝ := fun i => S.angles i * cum i
  let adjusted :=
    ((List.range (n - 1)).reverse).foldl (seq_step n S.angles cum)
      (S.basisA, S.basisB)
  (List.range n).foldl
    (fun dir ii => rotate_direction (adjusted.1 ii) (adjusted.2 ii) dir (tempAngle ii))
    direction

/-- Embeds `VectorRotationSequence.rotate(direction, rot_factor)`: a weight vector
that is zero except for `rot_factor` in the last slot. -/
def VectorRotationSequence.rotate {d : ℕ} (S : VectorRotationSequence d)
    (direction : Vec d) (rot_factor : ℝ) : Vec d :=
  S.rotate_weighted direction
    (fun i => if i = S.n_rotations - 1 then rot_factor else 0)

/-- The five-column direction array of the weighted-chain interpolation test:
`[1,0,0], [0,1,0], [0,0,1], [-1,0,0], [0,-1,0]`. -/
def seq5 : ℕ → Vec 3 := fun i =>
  if i = 0 then ![1, 0, 0]
  else if i = 1 then ![0, 1, 0]
  else if i = 2 then ![0, 0, 1]
  else if i = 3 then ![-1, 0, 0]
  else ![0, -1, 0]

/-- The weights `[0.5, 0.5, 0, 0]` of the weighted-chain interpolation test. -/
def c2weights : ℕ → ℝ := fun i =>
  if i = 0 then 1 / 2 else if i = 1 then 1 / 2 else 0

/-- First basis column stored by `fromVectors` on `seq5` (the normalized input
columns). -/
def seq5A : ℕ → Vec 3 := fun i => vnormalize (seq5 i)

/-- Second basis column stored by `fromVectors` on `seq5` (the normalized
perpendicular components). -/
def seq5B : ℕ → Vec 3 := fun i =>
  vnormalize (fun j => vnormalize (seq5 (i + 1)) j
    - vnormalize (seq5 i) j * dotp (vnormalize (seq5 i)) (vnormalize (seq5 (i + 1))))

/-- Rotation angles stored by `fromVectors` on `seq5`. -/
def seq5angles : ℕ → ℝ := fun i =>
  Real.arccos (dotp (vnormalize (seq5 i)) (vnormalize (seq5 (i + 1))))

/-- The weight vector built by `rotate(direction, rot_factor=1)` on a
four-rotation sequence: `np.zeros(4)` with `weights[-1] = 1`. -/
def onehot3 : ℕ → ℝ := fun i => if i = 3 then 1 else 0

/-- Backward-cumulated weights of the full-rotation call. -/
def cum_onehot : ℕ → ℝ := fun i => ∑ j ∈ Finset.Ico i 4, onehot3 j

/-- Backward-cumulated weights of the `[0.5, 0.5, 0, 0]` call. -/
def cum_c2 : ℕ → ℝ := fun i => ∑ j ∈ Finset.Ico i 4, c2weights j

/-- Adjusted bases after loop iterations `ii = 2`, `2,1`, `2,1,0` of the
full-rotation call. -/
def B2full : (ℕ → Vec 3) × (ℕ → Vec 3) :=
  seq_step 4 seq5angles cum_onehot (seq5A, seq5B) 2

def B1full : (ℕ → Vec 3) × (ℕ → Vec 3) := seq_step 4 seq5angles cum_onehot B2full 1

def B0full : (ℕ → Vec 3) × (ℕ → Vec 3) := seq_step 4 seq5angles cum_onehot B1full 0

/-- Adjusted bases after loop iterations `ii = 2`, `2,1`, `2,1,0` of the
weighted call. -/
def B2w : (ℕ → Vec 3) × (ℕ → Vec 3) := seq_step 4 seq5angles cum_c2 (seq5A, seq5B) 2

def B1w : (ℕ → Vec 3) × (ℕ → Vec 3) := seq_step 4 seq5angles cum_c2 B2w 1

def B0w : (ℕ → Vec 3) × (ℕ → Vec 3) := seq_step 4 seq5angles cum_c2 B1w 0

end

/-! ## Dot-product algebra -/

theorem dotp_comm {d : ℕ} (x y : Vec d) : dotp x y = dotp y x := by
  unfold dotp
  exact Finset.sum_congr rfl fun i _ => mul_comm _ _

theorem dotp_self_nonneg {d : ℕ} (x : Vec d) : 0 ≤ dotp x x :=
  Finset.sum_nonneg fun _ _ => mul_self_nonneg _

/-- Expansion of a dot product against `p • b0 + q • b1 + x` (componentwise). -/
theorem dotp_comb_right {d : ℕ} (v b0 b1 x : Vec d) (p q : ℝ) :
    dotp v (fun i => p * b0 i + q * b1 i + x i)
      = p * dotp v b0 + q * dotp v b1 + dotp v x := by
  have h : ∀ i, v i * (p * b0 i + q * b1 i + x i)
      = p * (v i * b0 i) + q * (v i * b1 i) + v i * x i := fun i => by ring
  simp only [dotp, h, Finset.sum_add_distrib, ← Finset.mul_sum]

/-- Expansion of a dot product against `a - t • b` (componentwise). -/
theorem dotp_sub_mul_right {d : ℕ} (v a b : Vec d) (t : ℝ) :
    dotp v (fun i => a i - b i * t) = dotp v a - t * dotp v b := by
  have h : ∀ i, v i * (a i - b i * t) = v i * a i - t * (v i * b i) := fun i => by ring
  simp only [dotp, h, Finset.sum_sub_distrib, ← Finset.mul_sum]

theorem dotp_sub_mul_self {d : ℕ} (a b : Vec d) (t : ℝ) :
    dotp (fun i => a i - b i * t) (fun i => a i - b i * t)
      = dotp a a - 2 * t * dotp a b + t ^ 2 * dotp b b := by
  have h : ∀ i, (a i - b i * t) * (a i - b i * t)
      = a i * a i - 2 * t * (a i * b i) + t ^ 2 * (b i * b i) := fun i => by ring
  simp only [dotp, h, Finset.sum_add_distrib, Finset.sum_sub_distrib, ← Finset.mul_sum]

theorem dotp_add_self {d : ℕ} (a b : Vec d) :
    dotp (fun i => a i + b i) (fun i => a i + b i)
      = dotp a a + 2 * dotp a b + dotp b b := by
  have h : ∀ i, (a i + b i) * (a i + b i)
      = a i * a i + 2 * (a i * b i) + b i * b i := fun i => by ring
  simp only [dotp, h, Finset.sum_add_distrib, ← Finset.mul_sum]

/-- Two unit vectors have dot product at least `-1`. -/
theorem neg_one_le_dotp {d : ℕ} (x y : Vec d)
    (hx : dotp x x = 1) (hy : dotp y y = 1) : -1 ≤ dotp x y := by
  have h := dotp_self_nonneg (fun i => x i + y i)
  rw [dotp_add_self, hx, hy] at h
  linarith

/-- Two unit vectors have dot product at most `1`. -/
theorem dotp_le_one {d : ℕ} (x y : Vec d)
    (hx : dotp x x = 1) (hy : dotp y y = 1) : dotp x y ≤ 1 := by
  have h := dotp_self_nonneg (fun i => x i - y i * 1)
  rw [dotp_sub_mul_self, hx, hy] at h
  linarith

/-! ## Normalization -/

theorem vnormalize_of_unit {d : ℕ} (x : Vec d) (h : dotp x x = 1) :
    vnormalize x = x := by
  funext i
  simp [vnormalize, vnorm, h]

theorem dotp_vnormalize_right {d : ℕ} (v x : Vec d) :
    dotp v (vnormalize x) = dotp v x / vnorm x := by
  have h : ∀ i, v i * (x i / vnorm x) = v i * x i / vnorm x := fun i => by ring
  simp only [dotp, vnormalize, h, ← Finset.sum_div]

theorem dotp_vnormalize_self {d : ℕ} (x : Vec d) (h : 0 < dotp x x) :
    dotp (vnormalize x) (vnormalize x) = 1 := by
  have hv : vnorm x = Real.sqrt (dotp x x) := rfl
  have hsq : vnorm x * vnorm x = dotp x x := by
    rw [hv]; exact Real.mul_self_sqrt (le_of_lt h)
  have hne : vnorm x ≠ 0 := by
    rw [hv]
    exact ne_of_gt (Real.sqrt_pos.mpr h)
  have hexp : ∀ i, (x i / vnorm x) * (x i / vnorm x)
      = x i * x i / (vnorm x * vnorm x) := fun i => by ring
  simp only [dotp, vnormalize, hexp, ← Finset.sum_div, hsq]
  rw [← dotp, div_self (ne_of_gt h)]

/-! ## The polar-angle shift of `rotate_direction`, in closed form -/

theorem sqrt_mul_cos_atan2 (y x θ : ℝ) :
    Real.sqrt (x ^ 2 + y ^ 2) * Real.cos (atan2 y x + θ)
      = x * Real.cos θ - y * Real.sin θ := by
  have habs : Complex.abs ⟨x, y⟩ = Real.sqrt (x ^ 2 + y ^ 2) := by
    rw [Complex.abs_apply, Complex.normSq_mk]
    ring_nf
  have hc := Complex.abs_mul_cos_arg ⟨x, y⟩
  have hs := Complex.abs_mul_sin_arg ⟨x, y⟩
  rw [habs] at hc hs
  rw [atan2, Real.cos_add]
  calc Real.sqrt (x ^ 2 + y ^ 2) *
        (Real.cos (Complex.arg ⟨x, y⟩) * Real.cos θ -
          Real.sin (Complex.arg ⟨x, y⟩) * Real.sin θ)
      = (Real.sqrt (x ^ 2 + y ^ 2) * Real.cos (Complex.arg ⟨x, y⟩)) * Real.cos θ
        - (Real.sqrt (x ^ 2 + y ^ 2) * Real.sin (Complex.arg ⟨x, y⟩)) * Real.sin θ := by
        ring
    _ = x * Real.cos θ - y * Real.sin θ := by rw [hc, hs]

theorem sqrt_mul_sin_atan2 (y x θ : ℝ) :
    Real.sqrt (x ^ 2 + y ^ 2) * Real.sin (atan2 y x + θ)
      = x * Real.sin θ + y * Real.cos θ := by
  have habs : Complex.abs ⟨x, y⟩ = Real.sqrt (x ^ 2 + y ^ 2) := by
    rw [Complex.abs_apply, Complex.normSq_mk]
    ring_nf
  have hc := Complex.abs_mul_cos_arg ⟨x, y⟩
  have hs := Complex.abs_mul_sin_arg ⟨x, y⟩
  rw [habs] at hc hs
  rw [atan2, Real.sin_add]
  calc Real.sqrt (x ^ 2 + y ^ 2) *
        (Real.sin (Complex.arg ⟨x, y⟩) * Real.cos θ +
          Real.cos (Complex.arg ⟨x, y⟩) * Real.sin θ)
      = (Real.sqrt (x ^ 2 + y ^ 2) * Real.sin (Complex.arg ⟨x, y⟩)) * Real.cos θ
        + (Real.sqrt (x ^ 2 + y ^ 2) * Real.cos (Complex.arg ⟨x, y⟩)) * Real.sin θ := by
        ring
    _ = y * Real.cos θ + x * Real.sin θ := by rw [hc, hs]
    _ = x * Real.sin θ + y * Real.cos θ := by ring

/-- Closed form of `rotate_direction` on a unit input: the in-plane part is
rotated by `θ` in the `(base0, base1)` coordinates and the orthogonal part
passes through untouched. -/
theorem rotate_direction_eval {d : ℕ} (b0 b1 x : Vec d) (θ : ℝ)
    (hx : dotp x x = 1) :
    rotate_direction b0 b1 x θ = fun i =>
      (dotp b0 x * Real.cos θ - dotp b1 x * Real.sin θ) * b0 i
        + (dotp b0 x * Real.sin θ + dotp b1 x * Real.cos θ) * b1 i
        + (x i - (dotp b0 x * b0 i + dotp b1 x * b1 i)) := by
  have hu := vnormalize_of_unit x hx
  simp only [rotate_direction, hu]
  funext i
  have hc := sqrt_mul_cos_atan2 (dotp b1 x) (dotp b0 x) θ
  have hs := sqrt_mul_sin_atan2 (dotp b1 x) (dotp b0 x) θ
  linear_combination b0 i * hc + b1 i * hs

/-- Rotating by angle `0` is the identity on unit inputs, whatever the base. -/
theorem rotate_direction_zero {d : ℕ} (b0 b1 x : Vec d) (hx : dotp x x = 1) :
    rotate_direction b0 b1 x 0 = x := by
  rw [rotate_direction_eval b0 b1 x 0 hx]
  funext i
  simp [Real.cos_zero, Real.sin_zero]

/-- Round-trip: on a unit input and an orthonormal base, rotating by `θ` and
then by `-θ` returns the input. -/
theorem rotate_direction_roundtrip {d : ℕ} (b0 b1 x : Vec d) (θ : ℝ)
    (h00 : dotp b0 b0 = 1) (h11 : dotp b1 b1 = 1) (h01 : dotp b0 b1 = 0)
    (hx : dotp x x = 1) :
    rotate_direction b0 b1 (rotate_direction b0 b1 x θ) (-θ) = x := by
  set x0 := dotp b0 x with hx0
  set y0 := dotp b1 x with hy0
  set A := x0 * Real.cos θ - y0 * Real.sin θ with hA
  set B := x0 * Real.sin θ + y0 * Real.cos θ with hB
  have hsc : Real.sin θ ^ 2 + Real.cos θ ^ 2 = 1 := Real.sin_sq_add_cos_sq θ
  -- the rotated vector, written as a linear combination over (b0, b1, x)
  have hX : rotate_direction b0 b1 x θ
      = fun i => (A - x0) * b0 i + (B - y0) * b1 i + x i := by
    rw [rotate_direction_eval b0 b1 x θ hx]
    funext i
    ring
  set X := fun i => (A - x0) * b0 i + (B - y0) * b1 i + x i with hXdef
  have hb0X : dotp b0 X = A := by
    rw [hXdef, dotp_comb_right, h00, h01, ← hx0]
    ring
  have hb1X : dotp b1 X = B := by
    rw [hXdef, dotp_comb_right, dotp_comm b1 b0, h01, h11, ← hy0]
    ring
  have hxX : dotp x X = (A - x0) * x0 + (B - y0) * y0 + 1 := by
    rw [hXdef, dotp_comb_right, dotp_comm x b0, ← hx0, dotp_comm x b1, ← hy0, hx]
  have hXX : dotp X X = 1 := by
    have hexp : dotp X X
        = (A - x0) * dotp X b0 + (B - y0) * dotp X b1 + dotp X x := by
      conv_lhs => rw [hXdef]
      rw [dotp_comb_right]
    rw [hexp, dotp_comm X b0, hb0X, dotp_comm X b1, hb1X, dotp_comm X x, hxX]
    rw [hA, hB]
    linear_combination (x0 ^ 2 + y0 ^ 2) * hsc
  rw [hX, rotate_direction_eval b0 b1 X (-θ) hXX, hb0X, hb1X]
  funext i
  rw [Real.cos_neg, Real.sin_neg]
  simp only [hXdef]
  rw [hA, hB]
  linear_combination (x0 * b0 i + y0 * b1 i) * hsc

/-! ## `from_directions`: case analysis and base properties -/

theorem from_directions_lt {d : ℕ} (v1 v2 : Vec d)
    (hne : dotp v1 v2 ≠ -1) (hlt : dotp v1 v2 < 1) :
    VectorRotationXd.from_directions v1 v2
      = some ⟨v1, vnormalize (fun i => v2 i - v1 i * dotp v1 v2),
          Real.arccos (dotp v1 v2)⟩ := by
  simp only [VectorRotationXd.from_directions]
  rw [if_neg hne, if_pos hlt]

theorem from_directions_ge {d : ℕ} (v1 v2 : Vec d)
    (hne : dotp v1 v2 ≠ -1) (hge : ¬dotp v1 v2 < 1) :
    VectorRotationXd.from_directions v1 v2
      = some ⟨v1, v2, Real.arccos (dotp v1 v2)⟩ := by
  simp only [VectorRotationXd.from_directions]
  rw [if_neg hne, if_neg hge]

theorem from_directions_none_iff {d : ℕ} (v1 v2 : Vec d) :
    VectorRotationXd.from_directions v1 v2 = none ↔ dotp v1 v2 = -1 := by
  simp only [VectorRotationXd.from_directions]
  split_ifs with h1 h2 <;> simp [h1]

/-- Properties of the base stored by `from_directions` on unit inputs. -/
theorem from_directions_base {d : ℕ} (v1 v2 : Vec d) (r : VectorRotationXd d)
    (h1 : dotp v1 v1 = 1) (h2 : dotp v2 v2 = 1) (hna : dotp v1 v2 ≠ -1)
    (hr : VectorRotationXd.from_directions v1 v2 = some r) :
    r.base0 = v1 ∧ dotp r.base0 r.base0 = 1 ∧ dotp r.base1 r.base1 = 1 ∧
      (dotp v1 v2 < 1 → dotp r.base0 r.base1 = 0) ∧
      r.rotation_angle = Real.arccos (dotp v1 v2) := by
  have hub := neg_one_le_dotp v1 v2 h1 h2
  by_cases hlt : dotp v1 v2 < 1
  · rw [from_directions_lt v1 v2 hna hlt] at hr
    obtain rfl := Option.some_inj.mp hr
    set t := dotp v1 v2 with ht
    have hgt : -1 < t := lt_of_le_of_ne hub (Ne.symm hna)
    have hperp : dotp (fun i => v2 i - v1 i * t) (fun i => v2 i - v1 i * t)
        = 1 - t ^ 2 := by
      rw [dotp_sub_mul_self, h2, h1, dotp_comm v2 v1, ← ht]
      ring
    have hpos : (0 : ℝ) < 1 - t ^ 2 := by nlinarith
    refine ⟨rfl, h1, ?_, fun _ => ?_, rfl⟩
    · exact dotp_vnormalize_self _ (by rw [hperp]; exact hpos)
    · show dotp v1 (vnormalize _) = 0
      rw [dotp_vnormalize_right, dotp_sub_mul_right, h1, ← ht]
      simp
  · rw [from_directions_ge v1 v2 hna hlt] at hr
    obtain rfl := Option.some_inj.mp hr
    exact ⟨rfl, h1, h2, fun h => absurd h hlt, rfl⟩

/-- C5: for every `VectorRotationXd` built by `from_directions` from two
non-antiparallel unit directions and every unit vector `x` of the same
dimension, `inverse_rotate (rotate x)` returns `x`, and `inverse_rotate`
coincides with `rotate` at rotation factor `-1`. -/
theorem c5_inverse_rotate_roundtrip {d : ℕ} (v1 v2 x : Vec d)
    (r : VectorRotationXd d)
    (h1 : dotp v1 v1 = 1) (h2 : dotp v2 v2 = 1) (hx : dotp x x = 1)
    (hna : dotp v1 v2 ≠ -1)
    (hr : VectorRotationXd.from_directions v1 v2 = some r) :
    r.inverse_rotate (r.rotate x 1) = x ∧
      ∀ y, r.inverse_rotate y = r.rotate y (-1) := by
  obtain ⟨_, hu0, hu1, horth, hang⟩ := from_directions_base v1 v2 r h1 h2 hna hr
  constructor
  · by_cases hlt : dotp v1 v2 < 1
    · have h01 := horth hlt
      unfold VectorRotationXd.rotate VectorRotationXd.inverse_rotate
      rw [one_mul, neg_one_mul]
      exact rotate_direction_roundtrip r.base0 r.base1 x r.rotation_angle
        hu0 hu1 h01 hx
    · have hle := dotp_le_one v1 v2 h1 h2
      have heq : dotp v1 v2 = 1 := le_antisymm hle (not_lt.mp hlt)
      have hang0 : r.rotation_angle = 0 := by rw [hang, heq, Real.arccos_one]
      unfold VectorRotationXd.rotate VectorRotationXd.inverse_rotate
      rw [hang0, mul_zero, mul_zero, rotate_direction_zero _ _ x hx,
        rotate_direction_zero _ _ x hx]
  · intro y
    rfl

/-- C5 witness: the round trip evaluated on the concrete rotation
`[1,0] → [0,1]` and the unit vector `[0,1]`. -/
theorem c5_witness :
    ∃ r : VectorRotationXd 2,
      VectorRotationXd.from_directions ![1, 0] ![0, 1] = some r ∧
        r.inverse_rotate (r.rotate ![0, 1] 1) = ![0, 1] := by
  have hdot : dotp (![1, 0] : Vec 2) ![0, 1] = 0 := by
    norm_num [dotp, Fin.sum_univ_two]
  have hr := from_directions_lt (![1, 0] : Vec 2) ![0, 1]
    (by rw [hdot]; norm_num) (by rw [hdot]; norm_num)
  refine ⟨_, hr, ?_⟩
  exact (c5_inverse_rotate_roundtrip ![1, 0] ![0, 1] ![0, 1] _
    (by norm_num [dotp, Fin.sum_univ_two])
    (by norm_num [dotp, Fin.sum_univ_two])
    (by norm_num [dotp, Fin.sum_univ_two])
    (by rw [hdot]; norm_num) hr).1

/-- C6: `from_directions` raises the antiparallel error exactly when the dot
product of its two inputs equals `-1`, and in particular does so on
`[1,0]`, `[-1,0]`. -/
theorem c6_antiparallel_rejection :
    (∀ (d : ℕ) (v1 v2 : Vec d),
        VectorRotationXd.from_directions v1 v2 = none ↔ dotp v1 v2 = -1) ∧
      VectorRotationXd.from_directions (![1, 0] : Vec 2) ![-1, 0] = none := by
  refine ⟨fun d v1 v2 => from_directions_none_iff v1 v2, ?_⟩
  rw [from_directions_none_iff]
  norm_num [dotp, Fin.sum_univ_two]

/-- C7 counterexample: `from_directions` does not normalize its inputs — on
the non-unit input pair `[2,0]`, `[0,1]` the stored base's first column is the
raw `[2,0]`, whose squared norm is `4`, not `1`, so the stored base is not
orthonormal. -/
theorem c7_counterexample :
    (VectorRotationXd.from_directions (![2, 0] : Vec 2) ![0, 1]).map
        (fun r => dotp r.base0 r.base0) = some 4 ∧ ((4 : ℝ) ≠ 1) := by
  have hdot : dotp (![2, 0] : Vec 2) ![0, 1] = 0 := by
    norm_num [dotp, Fin.sum_univ_two]
  rw [from_directions_lt (![2, 0] : Vec 2) ![0, 1]
    (by rw [hdot]; norm_num) (by rw [hdot]; norm_num)]
  refine ⟨?_, by norm_num⟩
  simp only [Option.map_some']
  norm_num [dotp, Fin.sum_univ_two]

/-- C7 (amended): `from_directions` uses its inputs as given (the
normalization lines are commented out); when both inputs are unit and not
antiparallel the stored base has unit columns, and the two columns are
orthogonal whenever the inputs are not parallel (`dot_prod < 1`). -/
theorem c7_amended_base_orthonormal {d : ℕ} (v1 v2 : Vec d)
    (r : VectorRotationXd d)
    (h1 : dotp v1 v1 = 1) (h2 : dotp v2 v2 = 1) (hna : dotp v1 v2 ≠ -1)
    (hr : VectorRotationXd.from_directions v1 v2 = some r) :
    r.base0 = v1 ∧ dotp r.base0 r.base0 = 1 ∧ dotp r.base1 r.base1 = 1 ∧
      (dotp v1 v2 < 1 → dotp r.base0 r.base1 = 0) := by
  obtain ⟨hb, hu0, hu1, horth, _⟩ := from_directions_base v1 v2 r h1 h2 hna hr
  exact ⟨hb, hu0, hu1, horth⟩

/-- C7 witness: the amended statement evaluated on the unit pair
`[0,1]`, `[1,0]`. -/
theorem c7_witness :
    ∃ r : VectorRotationXd 2,
      VectorRotationXd.from_directions ![0, 1] ![1, 0] = some r ∧
        dotp r.base0 r.base0 = 1 ∧ dotp r.base1 r.base1 = 1 ∧
        dotp r.base0 r.base1 = 0 := by
  have hdot : dotp (![0, 1] : Vec 2) ![1, 0] = 0 := by
    norm_num [dotp, Fin.sum_univ_two]
  have hr := from_directions_lt (![0, 1] : Vec 2) ![1, 0]
    (by rw [hdot]; norm_num) (by rw [hdot]; norm_num)
  refine ⟨_, hr, ?_⟩
  obtain ⟨_, hu0, hu1, horth⟩ := c7_amended_base_orthonormal ![0, 1] ![1, 0] _
    (by norm_num [dotp, Fin.sum_univ_two])
    (by norm_num [dotp, Fin.sum_univ_two])
    (by rw [hdot]; norm_num) hr
  exact ⟨hu0, hu1, horth (by rw [hdot]; norm_num)⟩

/-- When `from_directions` succeeds and the angle exceeds a nonzero limit,
`add_node` hits the `new_rotation.basis` attribute error. -/
theorem add_node_limit_exceeded {d : ℕ} (v1 v2 : Vec d) (L : ℝ)
    (r : VectorRotationXd d)
    (hr : VectorRotationXd.from_directions v1 v2 = some r)
    (hL0 : L ≠ 0) (hL : L < |r.rotation_angle|) :
    add_node v1 v2 L = .error "AttributeError: basis" := by
  unfold add_node
  simp only [hr]
  rw [if_pos ⟨hL0, hL⟩]

theorem sqrt_two_lt_eight_fifths : Real.sqrt 2 < 8 / 5 := by
  nlinarith [Real.sq_sqrt (by norm_num : (0 : ℝ) ≤ 2), Real.sqrt_nonneg 2]

theorem pi_mul_three_quarters_lt_arccos : Real.pi * 0.75 < Real.arccos (-4 / 5) := by
  by_contra hcon
  push_neg at hcon
  have hpi := Real.pi_pos
  have h1 : Real.cos (Real.pi * 0.75) ≤ Real.cos (Real.arccos (-4 / 5)) :=
    Real.cos_le_cos_of_nonneg_of_le_pi (Real.arccos_nonneg _)
      (by nlinarith) hcon
  rw [Real.cos_arccos (by norm_num) (by norm_num)] at h1
  have h2 : Real.pi * 0.75 = Real.pi - Real.pi / 4 := by ring
  rw [h2, Real.cos_pi_sub, Real.cos_pi_div_four] at h1
  nlinarith [sqrt_two_lt_eight_fifths, Real.sqrt_nonneg 2]

/-- C3 (code_bug evidence): adding a node whose rotation from the parent's
stored direction `[1,0]` to the new direction `[-4/5, 3/5]` has angle
`arccos(-4/5) > 0.75·π`, the configured limit: the raw angle exceeds the
limit, and instead of storing a clipped node and warning, `add_node` raises
(`VectorRotationXd` has no attribute `basis`; moreover the subsequent
`new_rotation.angle = ...` line would create a fresh attribute and leave
`rotation_angle` unchanged). -/
theorem c3_add_node_limit_crashes :
    Real.pi * 0.75 < Real.arccos (dotp (![1, 0] : Vec 2) ![-4/5, 3/5]) ∧
      add_node (![1, 0] : Vec 2) ![-4/5, 3/5] (Real.pi * 0.75)
        = .error "AttributeError: basis" := by
  have hdot : dotp (![1, 0] : Vec 2) ![-4/5, 3/5] = -4 / 5 := by
    norm_num [dotp, Fin.sum_univ_two]
  have hlim := pi_mul_three_quarters_lt_arccos
  have hpi := Real.pi_pos
  refine ⟨by rw [hdot]; exact hlim, ?_⟩
  have hr := from_directions_lt (![1, 0] : Vec 2) ![-4/5, 3/5]
    (by rw [hdot]; norm_num) (by rw [hdot]; norm_num)
  refine add_node_limit_exceeded _ _ _ _ hr (by nlinarith) ?_
  rw [abs_of_nonneg (Real.arccos_nonneg _)]
  rw [hdot]
  exact hlim

/-! ## Claims on the tree weight pass and the container -/

/-- C1 (code_bug evidence): on the two-node tree `root 0 → child 1` with the
query assigning weight `1` to node `1`, the weight-propagation pass of
`get_weighted_mean` leaves the root's stored weight at `0`: the pass adds each
visited node's current weight into its successors (downward accumulation), so
the root never receives its descendant's weight — the claimed
own-plus-descendants total for the root is `0 + 1 = 1`. -/
theorem c1_propagation_root_weight :
    propagate_node_weights [0, 1] tree2_successors (assign_weights [1] [1]) 0 = 0
      ∧ assign_weights [1] [1] 0 + assign_weights [1] [1] 1 = 1 := by
  refine ⟨by decide, ?_⟩
  norm_num [assign_weights, Function.update]

/-- Loop invariant of `check_collision`: the loop returns `true` iff some
remaining non-boundary obstacle is strictly inside, or every accumulated
boundary gamma is `≤ 1` and every remaining boundary obstacle has gamma
`≤ 1`. -/
theorem check_collision_loop_spec (obs : List ObstacleAt) (acc : List ℚ) :
    check_collision_loop obs acc = true ↔
      ((∃ o ∈ obs, o.is_boundary = false ∧ o.gamma < 1) ∨
        ((∀ g ∈ acc, g ≤ 1) ∧ ∀ o ∈ obs, o.is_boundary = true → o.gamma ≤ 1)) := by
  induction obs generalizing acc with
  | nil =>
    simp [check_collision_loop, List.all_eq_true]
  | cons o rest ih =>
    cases hb : o.is_boundary with
    | true =>
      have hstep : check_collision_loop (o :: rest) acc
          = check_collision_loop rest (acc ++ [o.gamma]) := by
        simp [check_collision_loop, hb]
      rw [hstep, ih]
      constructor
      · rintro (⟨o', ho', h1, h2⟩ | ⟨hacc, hrest⟩)
        · exact Or.inl ⟨o', List.mem_cons_of_mem _ ho', h1, h2⟩
        · refine Or.inr ⟨fun g hg => hacc g (List.mem_append_left _ hg), ?_⟩
          intro o' ho' hb'
          rcases List.mem_cons.mp ho' with rfl | ho''
          · exact hacc o'.gamma (List.mem_append_right _ (List.mem_singleton_self _))
          · exact hrest o' ho'' hb'
      · rintro (⟨o', ho', h1, h2⟩ | ⟨hacc, hrest⟩)
        · rcases List.mem_cons.mp ho' with rfl | ho''
          · rw [hb] at h1; exact absurd h1 (by simp)
          · exact Or.inl ⟨o', ho'', h1, h2⟩
        · refine Or.inr ⟨?_, fun o' ho' hb' => hrest o' (List.mem_cons_of_mem _ ho') hb'⟩
          intro g hg
          rcases List.mem_append.mp hg with hg' | hg'
          · exact hacc g hg'
          · rw [List.mem_singleton.mp hg']
            exact hrest o (List.mem_cons_self _ _) hb
    | false =>
      by_cases hg : o.gamma < 1
      · have hstep : check_collision_loop (o :: rest) acc = true := by
          simp [check_collision_loop, hb, hg]
        rw [hstep]
        simp only [true_iff]
        exact Or.inl ⟨o, List.mem_cons_self _ _, hb, hg⟩
      · have hstep : check_collision_loop (o :: rest) acc
          = check_collision_loop rest acc := by
          simp [check_collision_loop, hb, hg]
        rw [hstep, ih]
        constructor
        · rintro (⟨o', ho', h1, h2⟩ | ⟨hacc, hrest⟩)
          · exact Or.inl ⟨o', List.mem_cons_of_mem _ ho', h1, h2⟩
          · refine Or.inr ⟨hacc, fun o' ho' hb' => ?_⟩
            rcases List.mem_cons.mp ho' with rfl | ho''
            · rw [hb] at hb'; exact absurd hb' (by simp)
            · exact hrest o' ho'' hb'
        · rintro (⟨o', ho', h1, h2⟩ | ⟨hacc, hrest⟩)
          · rcases List.mem_cons.mp ho' with rfl | ho''
            · exact absurd h2 hg
            · exact Or.inl ⟨o', ho'', h1, h2⟩
          · exact Or.inr ⟨hacc, fun o' ho' hb' => hrest o' (List.mem_cons_of_mem _ ho') hb'⟩

/-- C4: `check_collision` returns `True` iff some non-boundary obstacle has
gamma `< 1` or every boundary obstacle has gamma `≤ 1`; in particular a
position with gamma `> 1` for at least one boundary and gamma `≥ 1` for every
non-boundary obstacle is reported as not colliding. -/
theorem c4_check_collision_semantics :
    (∀ obs : List ObstacleAt,
        check_collision obs = true ↔
          ((∃ o ∈ obs, o.is_boundary = false ∧ o.gamma < 1) ∨
            ∀ o ∈ obs, o.is_boundary = true → o.gamma ≤ 1)) ∧
      ∀ obs : List ObstacleAt,
        (∃ o ∈ obs, o.is_boundary = true ∧ 1 < o.gamma) →
        (∀ o ∈ obs, o.is_boundary = false → 1 ≤ o.gamma) →
        check_collision obs = false := by
  have hiff : ∀ obs : List ObstacleAt,
      check_collision obs = true ↔
        ((∃ o ∈ obs, o.is_boundary = false ∧ o.gamma < 1) ∨
          ∀ o ∈ obs, o.is_boundary = true → o.gamma ≤ 1) := by
    intro obs
    rw [check_collision, check_collision_loop_spec]
    simp
  refine ⟨hiff, fun obs hbd hnb => ?_⟩
  cases hcc : check_collision obs with
  | false => rfl
  | true =>
    rcases (hiff obs).mp hcc with ⟨o, ho, h1, h2⟩ | hall
    · have := hnb o ho h1
      linarith
    · obtain ⟨o, ho, h1, h2⟩ := hbd
      have := hall o ho h1
      linarith

/-- C4 witness: one boundary with gamma `2 > 1` and one plain obstacle with
gamma `3 ≥ 1` — not a collision. -/
theorem c4_witness : check_collision [⟨true, 2⟩, ⟨false, 3⟩] = false :=
  c4_check_collision_semantics.2 _ (by decide) (by decide)

/-- C10: with no boundary obstacles in the container, every position not
strictly inside a non-boundary obstacle is reported as colliding (the final
conjunction over boundary gammas is a conjunction over the empty list); in
particular the empty container reports every position as colliding. -/
theorem c10_empty_boundary_collides :
    check_collision [] = true ∧
      ∀ obs : List ObstacleAt,
        (∀ o ∈ obs, o.is_boundary = false) →
        (∀ o ∈ obs, 1 ≤ o.gamma) →
        check_collision obs = true := by
  refine ⟨rfl, fun obs h1 h2 => ?_⟩
  rw [check_collision, check_collision_loop_spec]
  refine Or.inr ⟨by simp, fun o ho hb => ?_⟩
  rw [h1 o ho] at hb
  exact absurd hb (by simp)

/-- C10 witness: a container holding a single plain obstacle with gamma `2`. -/
theorem c10_witness : check_collision [⟨false, 2⟩] = true :=
  c10_empty_boundary_collides.2 [⟨false, 2⟩] (by decide) (by decide)

/-- C8: under the geometry guaranteed at the call site (`dist_point ≥ 0`,
strictly inside so `dist_point < dist_boundary_point`, and neighbours with
`gamma_boundary_point < 1` skipped, so `1 ≤ gamma_boundary_point`), every
computed blend weight `1 - 1/(1 + w1·w2)` lies in `[0, 1]`; and whenever the
maximal weight exceeds `1`, the call raises instead of storing a relative
reference point. -/
theorem c8_blend_weight_bounds :
    (∀ dist_point dist_boundary gamma_bp : ℚ,
        0 ≤ dist_point → dist_point < dist_boundary → 1 ≤ gamma_bp →
          0 ≤ blend_weight dist_point dist_boundary gamma_bp ∧
            blend_weight dist_point dist_boundary gamma_bp ≤ 1) ∧
      ∀ ws pos ref : List ℚ, 1 < rel_reference_weight ws →
        update_rel_ref ws pos ref = .error "Weight greater than 1..." := by
  constructor
  · intro dp db g h0 hlt hg
    simp only [blend_weight]
    have hw1nn : 0 ≤ dp / (db - dp) := div_nonneg h0 (by linarith)
    have hprod : 0 ≤ dp / (db - dp) * (g - 1) := mul_nonneg hw1nn (by linarith)
    have hpos : 0 < 1 + dp / (db - dp) * (g - 1) := by linarith
    constructor
    · have hle : 1 / (1 + dp / (db - dp) * (g - 1)) ≤ 1 := by
        rw [div_le_one hpos]; linarith
      linarith
    · have hpos2 : 0 < 1 / (1 + dp / (db - dp) * (g - 1)) := by positivity
      linarith
  · intro ws pos ref h
    simp only [update_rel_ref]
    rw [if_pos h]

/-- C8 witness: weight `blend_weight 1 2 3 = 2/3` lies in `[0,1]`, and a
weight list with maximum `2 > 1` raises. -/
theorem c8_witness :
    (0 ≤ blend_weight 1 2 3 ∧ blend_weight 1 2 3 ≤ 1) ∧
      update_rel_ref [2] [1] [1] = .error "Weight greater than 1..." :=
  ⟨c8_blend_weight_bounds.1 1 2 3 (by norm_num) (by norm_num) (by norm_num),
    c8_blend_weight_bounds.2 [2] [1] [1] (by decide)⟩

/-- C9: appending with `parent=-1` onto a container already holding `m ≥ 1`
obstacles links the new obstacle (index `m`, i.e. `n-1` of the new count
`n = m+1`) as a child of the previously appended obstacle (index `m-1`, i.e.
`n-2`): the new parent entry becomes `m-1` and `m` is appended to obstacle
`m-1`'s children; appending with `parent=None` leaves the new obstacle a root
(parent entry `-1`, children lists untouched). -/
theorem c9_append_parent_linking :
    (∀ s : MBContainer, 1 ≤ s.n_obstacles →
        s.children_list.length = s.parent_array.length →
        ((s.append (some (-1))).parent_array.getD s.n_obstacles 0
            = ((s.n_obstacles - 1 : ℕ) : ℤ)) ∧
          ((s.append (some (-1))).children_list.getD (s.n_obstacles - 1) []
            = s.children_list.getD (s.n_obstacles - 1) [] ++ [s.n_obstacles])) ∧
      ∀ s : MBContainer, (s.append none).parent_array = s.parent_array ++ [-1] ∧
        (s.append none).children_list = s.children_list ++ [[]] := by
  constructor
  · intro s hm hlen
    set m := s.n_obstacles with hmdef
    have hm' : m = s.parent_array.length := rfl
    have happ : s.append (some (-1))
        = MBContainer.extend_graph ⟨s.parent_array ++ [-1], s.children_list ++ [[]]⟩
            m (m - 1) := by
      simp only [MBContainer.append]
      rw [if_true]
      have hn1 : (MBContainer.n_obstacles
          ⟨s.parent_array ++ [-1], s.children_list ++ [[]]⟩) = m + 1 := by
        simp [MBContainer.n_obstacles, hm']
      rw [hn1]
      have h2 : m + 1 - 2 = m - 1 := by omega
      rw [h2]
      norm_num
    rw [happ]
    simp only [MBContainer.extend_graph, MBContainer.set_parent, MBContainer.add_children]
    constructor
    · -- parent entry of the new obstacle
      have hset : (s.parent_array ++ [-1]).set m ((m - 1 : ℕ) : ℤ)
          = s.parent_array ++ [((m - 1 : ℕ) : ℤ)] := by
        rw [List.set_append_right _ _ (le_of_eq hm'.symm)]
        simp [← hm']
      rw [hset, List.getD_append_right _ _ _ _ (le_of_eq hm'.symm)]
      simp [← hm']
    · -- children entry of the previous obstacle
      have hidx : m - 1 < s.children_list.length := by
        rw [hlen, ← hm']
        omega
    -- the children read happens before the set in `extend_graph`, but the two
    -- touched fields are distinct, so the read sees the appended list
      have hread : (s.children_list ++ [[]]).getD (m - 1) []
          = s.children_list.getD (m - 1) [] := List.getD_append _ _ _ _ hidx
      rw [List.set_append_left _ _ hidx, List.getD_append _ _ _ _ (by simpa using hidx),
        hread]
      simp only [List.getD, List.get?_eq_getElem?]
      rw [List.getElem?_set_self hidx]
      simp
  · intro s
    constructor <;> rfl

/-- C9 witness: appending with `parent=-1` onto the one-obstacle container. -/
theorem c9_witness :
    ((⟨[-1], [[]]⟩ : MBContainer).append (some (-1))).parent_array.getD 1 0
        = ((0 : ℕ) : ℤ) ∧
      ((⟨[-1], [[]]⟩ : MBContainer).append (some (-1))).children_list.getD 0 []
        = [1] := by
  have h := c9_append_parent_linking.1 ⟨[-1], [[]]⟩ (by decide) (by decide)
  simpa [MBContainer.n_obstacles] using h

/-! ## The weighted-chain interpolation sequence -/

/-- Evaluates `fromVectors` on an input with no antiparallel consecutive pair. -/
theorem fromVectors_eq (d m : ℕ) (v : ℕ → Vec d)
    (h : ∀ i ∈ Finset.range (m - 1),
      dotp (vnormalize (v i)) (vnormalize (v (i + 1))) ≠ -1) :
    VectorRotationSequence.fromVectors d m v
      = some ⟨m - 1, fun i => vnormalize (v i),
          fun i => vnormalize (fun j => vnormalize (v (i + 1)) j
            - vnormalize (v i) j * dotp (vnormalize (v i)) (vnormalize (v (i + 1)))),
          fun i => Real.arccos (dotp (vnormalize (v i)) (vnormalize (v (i + 1))))⟩ := by
  simp only [VectorRotationSequence.fromVectors]
  rw [if_neg]
  push_neg
  exact h

theorem seq5_unit : ∀ i < 5, dotp (seq5 i) (seq5 i) = 1 := by
  intro i hi
  interval_cases i <;> norm_num [seq5, dotp, Fin.sum_univ_three]

theorem seq5_nv : ∀ i < 5, vnormalize (seq5 i) = seq5 i :=
  fun i hi => vnormalize_of_unit _ (seq5_unit i hi)

theorem seq5_dp : ∀ i < 4,
    dotp (vnormalize (seq5 i)) (vnormalize (seq5 (i + 1))) = 0 := by
  intro i hi
  rw [seq5_nv i (by omega), seq5_nv (i + 1) (by omega)]
  interval_cases i <;> norm_num [seq5, dotp, Fin.sum_univ_three]

theorem fromVectors_seq5 :
    VectorRotationSequence.fromVectors 3 5 seq5
      = some ⟨4, seq5A, seq5B, seq5angles⟩ := by
  rw [fromVectors_eq 3 5 seq5 (fun i hi => by
    rw [seq5_dp i (by simpa using hi)]; norm_num)]
  rfl

theorem seq5A_eval : ∀ i < 5, seq5A i = seq5 i := by
  intro i hi
  exact seq5_nv i hi

theorem seq5B_eval : ∀ i < 4, seq5B i = seq5 (i + 1) := by
  intro i hi
  show vnormalize _ = _
  have harg : (fun j => vnormalize (seq5 (i + 1)) j
      - vnormalize (seq5 i) j * dotp (vnormalize (seq5 i)) (vnormalize (seq5 (i + 1))))
      = seq5 (i + 1) := by
    rw [seq5_dp i hi, seq5_nv (i + 1) (by omega)]
    funext j
    ring
  rw [harg]
  exact seq5_nv (i + 1) (by omega)

theorem seq5angles_eval : ∀ i < 4, seq5angles i = Real.pi / 2 := by
  intro i hi
  show Real.arccos _ = _
  rw [seq5_dp i hi, Real.arccos_zero]

/-- Components of one adjustment step. -/
theorem seq_step_fst {d : ℕ} (n : ℕ) (angles cum : ℕ → ℝ)
    (B : (ℕ → Vec d) × (ℕ → Vec d)) (ii jj : ℕ) :
    (seq_step n angles cum B ii).1 jj
      = if ii < jj ∧ jj < n then
          rotate_direction (B.1 ii) (B.2 ii) (B.1 jj) (angles ii * (1 - cum ii))
        else B.1 jj := by
  simp [seq_step, rotate_array]

theorem seq_step_snd {d : ℕ} (n : ℕ) (angles cum : ℕ → ℝ)
    (B : (ℕ → Vec d) × (ℕ → Vec d)) (ii jj : ℕ) :
    (seq_step n angles cum B ii).2 jj
      = if ii < jj ∧ jj < n then
          rotate_direction (B.1 ii) (B.2 ii) (B.2 jj) (angles ii * (1 - cum ii))
        else B.2 jj := by
  simp [seq_step, rotate_array]

/-- Evaluates `rotate_weighted` on a four-rotation sequence, with the two loops
unrolled. -/
theorem rotate_weighted_four {d : ℕ} (S : VectorRotationSequence d)
    (direction : Vec d) (weights cum ang : ℕ → ℝ) (bA bB : ℕ → Vec d)
    (B : (ℕ → Vec d) × (ℕ → Vec d))
    (hn : S.n_rotations = 4) (hang : S.angles = ang)
    (hbA : S.basisA = bA) (hbB : S.basisB = bB)
    (hcum : cum = fun i => ∑ j ∈ Finset.Ico i 4, weights j)
    (hB : B = seq_step 4 ang cum
        (seq_step 4 ang cum (seq_step 4 ang cum (bA, bB) 2) 1) 0) :
    S.rotate_weighted direction weights
      = rotate_direction (B.1 3) (B.2 3)
          (rotate_direction (B.1 2) (B.2 2)
            (rotate_direction (B.1 1) (B.2 1)
              (rotate_direction (B.1 0) (B.2 0) direction (ang 0 * cum 0))
              (ang 1 * cum 1))
            (ang 2 * cum 2))
          (ang 3 * cum 3) := by
  subst hB
  subst hang
  subst hbA
  subst hbB
  subst hcum
  simp only [VectorRotationSequence.rotate_weighted, hn]
  rfl

/-! ## Concrete rotation evaluations for the five-direction chain -/

theorem rotD_e1e2_e1_pi2 :
    rotate_direction (![1, 0, 0] : Vec 3) ![0, 1, 0] ![1, 0, 0] (Real.pi / 2)
      = ![0, 1, 0] := by
  rw [rotate_direction_eval _ _ _ _ (by norm_num [dotp, Fin.sum_univ_three])]
  funext i
  fin_cases i <;>
    norm_num [dotp, Fin.sum_univ_three, Real.cos_pi_div_two, Real.sin_pi_div_two]

theorem rotD_e2e3_e2_pi2 :
    rotate_direction (![0, 1, 0] : Vec 3) ![0, 0, 1] ![0, 1, 0] (Real.pi / 2)
      = ![0, 0, 1] := by
  rw [rotate_direction_eval _ _ _ _ (by norm_num [dotp, Fin.sum_univ_three])]
  funext i
  fin_cases i <;>
    norm_num [dotp, Fin.sum_univ_three, Real.cos_pi_div_two, Real.sin_pi_div_two]

theorem rotD_e3ne1_e3_pi2 :
    rotate_direction (![0, 0, 1] : Vec 3) ![-1, 0, 0] ![0, 0, 1] (Real.pi / 2)
      = ![-1, 0, 0] := by
  rw [rotate_direction_eval _ _ _ _ (by norm_num [dotp, Fin.sum_univ_three])]
  funext i
  fin_cases i <;>
    norm_num [dotp, Fin.sum_univ_three, Real.cos_pi_div_two, Real.sin_pi_div_two]

theorem rotD_ne1ne2_ne1_pi2 :
    rotate_direction (![-1, 0, 0] : Vec 3) ![0, -1, 0] ![-1, 0, 0] (Real.pi / 2)
      = ![0, -1, 0] := by
  rw [rotate_direction_eval _ _ _ _ (by norm_num [dotp, Fin.sum_univ_three])]
  funext i
  fin_cases i <;>
    norm_num [dotp, Fin.sum_univ_three, Real.cos_pi_div_two, Real.sin_pi_div_two]

theorem rotD_e3ne1_ne1_pi2 :
    rotate_direction (![0, 0, 1] : Vec 3) ![-1, 0, 0] ![-1, 0, 0] (Real.pi / 2)
      = ![0, 0, -1] := by
  rw [rotate_direction_eval _ _ _ _ (by norm_num [dotp, Fin.sum_univ_three])]
  funext i
  fin_cases i <;>
    norm_num [dotp, Fin.sum_univ_three, Real.cos_pi_div_two, Real.sin_pi_div_two]

theorem rotD_e3ne1_ne2_pi2 :
    rotate_direction (![0, 0, 1] : Vec 3) ![-1, 0, 0] ![0, -1, 0] (Real.pi / 2)
      = ![0, -1, 0] := by
  rw [rotate_direction_eval _ _ _ _ (by norm_num [dotp, Fin.sum_univ_three])]
  funext i
  fin_cases i <;>
    norm_num [dotp, Fin.sum_univ_three, Real.cos_pi_div_two, Real.sin_pi_div_two]

theorem rotD_e2e3_e3_pi4 :
    rotate_direction (![0, 1, 0] : Vec 3) ![0, 0, 1] ![0, 0, 1] (Real.pi / 4)
      = ![0, -(Real.sqrt 2 / 2), Real.sqrt 2 / 2] := by
  rw [rotate_direction_eval _ _ _ _ (by norm_num [dotp, Fin.sum_univ_three])]
  funext i
  fin_cases i <;>
    norm_num [dotp, Fin.sum_univ_three, Real.cos_pi_div_four, Real.sin_pi_div_four]

theorem rotD_e2e3_ne3_pi4 :
    rotate_direction (![0, 1, 0] : Vec 3) ![0, 0, 1] ![0, 0, -1] (Real.pi / 4)
      = ![0, Real.sqrt 2 / 2, -(Real.sqrt 2 / 2)] := by
  rw [rotate_direction_eval _ _ _ _ (by norm_num [dotp, Fin.sum_univ_three])]
  funext i
  fin_cases i <;>
    norm_num [dotp, Fin.sum_univ_three, Real.cos_pi_div_four, Real.sin_pi_div_four]

theorem rotD_e2e3_ne1_pi4 :
    rotate_direction (![0, 1, 0] : Vec 3) ![0, 0, 1] ![-1, 0, 0] (Real.pi / 4)
      = ![-1, 0, 0] := by
  rw [rotate_direction_eval _ _ _ _ (by norm_num [dotp, Fin.sum_univ_three])]
  funext i
  fin_cases i <;>
    norm_num [dotp, Fin.sum_univ_three, Real.cos_pi_div_four, Real.sin_pi_div_four]

theorem rotD_e2e3_ne2_pi4 :
    rotate_direction (![0, 1, 0] : Vec 3) ![0, 0, 1] ![0, -1, 0] (Real.pi / 4)
      = ![0, -(Real.sqrt 2 / 2), -(Real.sqrt 2 / 2)] := by
  rw [rotate_direction_eval _ _ _ _ (by norm_num [dotp, Fin.sum_univ_three])]
  funext i
  fin_cases i <;>
    norm_num [dotp, Fin.sum_univ_three, Real.cos_pi_div_four, Real.sin_pi_div_four]

theorem rotD_e2e3_e2_pi4 :
    rotate_direction (![0, 1, 0] : Vec 3) ![0, 0, 1] ![0, 1, 0] (Real.pi / 4)
      = ![0, Real.sqrt 2 / 2, Real.sqrt 2 / 2] := by
  rw [rotate_direction_eval _ _ _ _ (by norm_num [dotp, Fin.sum_univ_three])]
  funext i
  fin_cases i <;>
    norm_num [dotp, Fin.sum_univ_three, Real.cos_pi_div_four, Real.sin_pi_div_four]

/-! ## Cumulated weights and unit norms for the chain computation -/

theorem sqrt2_mul_self : Real.sqrt 2 * Real.sqrt 2 = 2 :=
  Real.mul_self_sqrt (by norm_num)

theorem cum_onehot_eval : ∀ i < 4, cum_onehot i = 1 := by
  intro i hi
  show (∑ j ∈ Finset.Ico i 4, onehot3 j) = 1
  simp only [onehot3]
  rw [Finset.sum_ite_eq' (Finset.Ico i 4) 3 fun _ => (1 : ℝ)]
  rw [if_pos (by simp [Finset.mem_Ico]; omega)]

theorem cum_c2_eval :
    cum_c2 0 = 1 ∧ cum_c2 1 = 1 / 2 ∧ cum_c2 2 = 0 ∧ cum_c2 3 = 0 := by
  have h3 : cum_c2 3 = c2weights 3 := by
    show (∑ j ∈ Finset.Ico 3 4, c2weights j) = _
    rw [Finset.sum_Ico_succ_top (by norm_num), Finset.Ico_self, Finset.sum_empty,
      zero_add]
  have h2 : cum_c2 2 = c2weights 2 + c2weights 3 := by
    show (∑ j ∈ Finset.Ico 2 4, c2weights j) = _
    rw [Finset.sum_Ico_succ_top (by norm_num), Finset.sum_Ico_succ_top (by norm_num),
      Finset.Ico_self, Finset.sum_empty, zero_add]
  have h1 : cum_c2 1 = c2weights 1 + c2weights 2 + c2weights 3 := by
    show (∑ j ∈ Finset.Ico 1 4, c2weights j) = _
    rw [Finset.sum_Ico_succ_top (by norm_num), Finset.sum_Ico_succ_top (by norm_num),
      Finset.sum_Ico_succ_top (by norm_num), Finset.Ico_self, Finset.sum_empty,
      zero_add]
  have h0 : cum_c2 0 = c2weights 0 + c2weights 1 + c2weights 2 + c2weights 3 := by
    show (∑ j ∈ Finset.Ico 0 4, c2weights j) = _
    rw [Finset.sum_Ico_succ_top (by norm_num), Finset.sum_Ico_succ_top (by norm_num),
      Finset.sum_Ico_succ_top (by norm_num), Finset.sum_Ico_succ_top (by norm_num),
      Finset.Ico_self, Finset.sum_empty, zero_add]
  refine ⟨?_, ?_, ?_, ?_⟩ <;> norm_num [h0, h1, h2, h3, c2weights]

theorem seq5A_unit : ∀ jj < 5, dotp (seq5A jj) (seq5A jj) = 1 := by
  intro jj hj
  rw [seq5A_eval jj hj]
  exact seq5_unit jj hj

theorem seq5B_unit : ∀ jj < 4, dotp (seq5B jj) (seq5B jj) = 1 := by
  intro jj hj
  rw [seq5B_eval jj hj]
  exact seq5_unit (jj + 1) (by omega)

theorem unit_pss : dotp (![0, Real.sqrt 2 / 2, Real.sqrt 2 / 2] : Vec 3)
    ![0, Real.sqrt 2 / 2, Real.sqrt 2 / 2] = 1 := by
  simp only [dotp, Fin.sum_univ_three]
  norm_num
  linear_combination (1 / 2) * sqrt2_mul_self

theorem unit_nss : dotp (![0, -(Real.sqrt 2 / 2), Real.sqrt 2 / 2] : Vec 3)
    ![0, -(Real.sqrt 2 / 2), Real.sqrt 2 / 2] = 1 := by
  simp only [dotp, Fin.sum_univ_three]
  norm_num
  linear_combination (1 / 2) * sqrt2_mul_self

theorem unit_sns : dotp (![0, Real.sqrt 2 / 2, -(Real.sqrt 2 / 2)] : Vec 3)
    ![0, Real.sqrt 2 / 2, -(Real.sqrt 2 / 2)] = 1 := by
  simp only [dotp, Fin.sum_univ_three]
  norm_num
  linear_combination (1 / 2) * sqrt2_mul_self

theorem unit_nsns : dotp (![0, -(Real.sqrt 2 / 2), -(Real.sqrt 2 / 2)] : Vec 3)
    ![0, -(Real.sqrt 2 / 2), -(Real.sqrt 2 / 2)] = 1 := by
  simp only [dotp, Fin.sum_univ_three]
  norm_num
  linear_combination (1 / 2) * sqrt2_mul_self

theorem unit_ne1 : dotp (![-1, 0, 0] : Vec 3) ![-1, 0, 0] = 1 := by
  norm_num [dotp, Fin.sum_univ_three]

/-! ## Adjusted bases of the full-rotation call (all adjustments are zero) -/

theorem adj_angle_onehot : ∀ ii < 4, seq5angles ii * (1 - cum_onehot ii) = 0 := by
  intro ii hi
  rw [seq5angles_eval ii hi, cum_onehot_eval ii hi]
  ring

theorem B2full_fst : ∀ jj < 4, B2full.1 jj = seq5A jj := by
  intro jj hj
  simp only [B2full, seq_step_fst]
  by_cases h : 2 < jj ∧ jj < 4
  · rw [if_pos h, adj_angle_onehot 2 (by norm_num)]
    exact rotate_direction_zero _ _ _ (seq5A_unit jj (by omega))
  · rw [if_neg h]

theorem B2full_snd : ∀ jj < 4, B2full.2 jj = seq5B jj := by
  intro jj hj
  simp only [B2full, seq_step_snd]
  by_cases h : 2 < jj ∧ jj < 4
  · rw [if_pos h, adj_angle_onehot 2 (by norm_num)]
    exact rotate_direction_zero _ _ _ (seq5B_unit jj hj)
  · rw [if_neg h]

theorem B1full_fst : ∀ jj < 4, B1full.1 jj = seq5A jj := by
  intro jj hj
  simp only [B1full, seq_step_fst]
  by_cases h : 1 < jj ∧ jj < 4
  · rw [if_pos h, adj_angle_onehot 1 (by norm_num), B2full_fst jj hj]
    exact rotate_direction_zero _ _ _ (seq5A_unit jj (by omega))
  · rw [if_neg h]
    exact B2full_fst jj hj

theorem B1full_snd : ∀ jj < 4, B1full.2 jj = seq5B jj := by
  intro jj hj
  simp only [B1full, seq_step_snd]
  by_cases h : 1 < jj ∧ jj < 4
  · rw [if_pos h, adj_angle_onehot 1 (by norm_num), B2full_snd jj hj]
    exact rotate_direction_zero _ _ _ (seq5B_unit jj hj)
  · rw [if_neg h]
    exact B2full_snd jj hj

theorem B0full_fst : ∀ jj < 4, B0full.1 jj = seq5A jj := by
  intro jj hj
  simp only [B0full, seq_step_fst]
  by_cases h : 0 < jj ∧ jj < 4
  · rw [if_pos h, adj_angle_onehot 0 (by norm_num), B1full_fst jj hj]
    exact rotate_direction_zero _ _ _ (seq5A_unit jj (by omega))
  · rw [if_neg h]
    exact B1full_fst jj hj

theorem B0full_snd : ∀ jj < 4, B0full.2 jj = seq5B jj := by
  intro jj hj
  simp only [B0full, seq_step_snd]
  by_cases h : 0 < jj ∧ jj < 4
  · rw [if_pos h, adj_angle_onehot 0 (by norm_num), B1full_snd jj hj]
    exact rotate_direction_zero _ _ _ (seq5B_unit jj hj)
  · rw [if_neg h]
    exact B1full_snd jj hj

/-! ## Concrete values of the stored basis columns -/

theorem seq5A_c0 : seq5A 0 = ![1, 0, 0] := (seq5A_eval 0 (by norm_num)).trans rfl

theorem seq5A_c1 : seq5A 1 = ![0, 1, 0] := (seq5A_eval 1 (by norm_num)).trans rfl

theorem seq5A_c2 : seq5A 2 = ![0, 0, 1] := (seq5A_eval 2 (by norm_num)).trans rfl

theorem seq5A_c3 : seq5A 3 = ![-1, 0, 0] := (seq5A_eval 3 (by norm_num)).trans rfl

theorem seq5B_c0 : seq5B 0 = ![0, 1, 0] := (seq5B_eval 0 (by norm_num)).trans rfl

theorem seq5B_c1 : seq5B 1 = ![0, 0, 1] := (seq5B_eval 1 (by norm_num)).trans rfl

theorem seq5B_c2 : seq5B 2 = ![-1, 0, 0] := (seq5B_eval 2 (by norm_num)).trans rfl

theorem seq5B_c3 : seq5B 3 = ![0, -1, 0] := (seq5B_eval 3 (by norm_num)).trans rfl

/-! ## Adjusted bases of the weighted call -/

theorem adj_angle_c2_2 : seq5angles 2 * (1 - cum_c2 2) = Real.pi / 2 := by
  rw [seq5angles_eval 2 (by norm_num), cum_c2_eval.2.2.1]
  ring

theorem adj_angle_c2_1 : seq5angles 1 * (1 - cum_c2 1) = Real.pi / 4 := by
  rw [seq5angles_eval 1 (by norm_num), cum_c2_eval.2.1]
  ring

theorem adj_angle_c2_0 : seq5angles 0 * (1 - cum_c2 0) = 0 := by
  rw [seq5angles_eval 0 (by norm_num), cum_c2_eval.1]
  ring

theorem B2w_fst_lt : ∀ jj < 3, B2w.1 jj = seq5A jj := by
  intro jj hj
  simp only [B2w, seq_step_fst]
  rw [if_neg (by omega)]

theorem B2w_snd_lt : ∀ jj < 3, B2w.2 jj = seq5B jj := by
  intro jj hj
  simp only [B2w, seq_step_snd]
  rw [if_neg (by omega)]

theorem B2w_fst_3 : B2w.1 3 = ![0, 0, -1] := by
  simp only [B2w, seq_step_fst]
  rw [if_pos (by norm_num), adj_angle_c2_2]
  show rotate_direction (seq5A 2) (seq5B 2) (seq5A 3) (Real.pi / 2) = _
  rw [seq5A_c2, seq5B_c2, seq5A_c3]
  exact rotD_e3ne1_ne1_pi2

theorem B2w_snd_3 : B2w.2 3 = ![0, -1, 0] := by
  simp only [B2w, seq_step_snd]
  rw [if_pos (by norm_num), adj_angle_c2_2]
  show rotate_direction (seq5A 2) (seq5B 2) (seq5B 3) (Real.pi / 2) = _
  rw [seq5A_c2, seq5B_c2, seq5B_c3]
  exact rotD_e3ne1_ne2_pi2

theorem B1w_fst_lt : ∀ jj < 2, B1w.1 jj = seq5A jj := by
  intro jj hj
  simp only [B1w, seq_step_fst]
  rw [if_neg (by omega)]
  exact B2w_fst_lt jj (by omega)

theorem B1w_snd_lt : ∀ jj < 2, B1w.2 jj = seq5B jj := by
  intro jj hj
  simp only [B1w, seq_step_snd]
  rw [if_neg (by omega)]
  exact B2w_snd_lt jj (by omega)

theorem B1w_fst_2 : B1w.1 2 = ![0, -(Real.sqrt 2 / 2), Real.sqrt 2 / 2] := by
  simp only [B1w, seq_step_fst]
  rw [if_pos (by norm_num), adj_angle_c2_1, B2w_fst_lt 1 (by norm_num),
    B2w_snd_lt 1 (by norm_num), B2w_fst_lt 2 (by norm_num), seq5A_c1, seq5B_c1,
    seq5A_c2]
  exact rotD_e2e3_e3_pi4

theorem B1w_snd_2 : B1w.2 2 = ![-1, 0, 0] := by
  simp only [B1w, seq_step_snd]
  rw [if_pos (by norm_num), adj_angle_c2_1, B2w_fst_lt 1 (by norm_num),
    B2w_snd_lt 1 (by norm_num), B2w_snd_lt 2 (by norm_num), seq5A_c1, seq5B_c1,
    seq5B_c2]
  exact rotD_e2e3_ne1_pi4

theorem B1w_fst_3 : B1w.1 3 = ![0, Real.sqrt 2 / 2, -(Real.sqrt 2 / 2)] := by
  simp only [B1w, seq_step_fst]
  rw [if_pos (by norm_num), adj_angle_c2_1, B2w_fst_lt 1 (by norm_num),
    B2w_snd_lt 1 (by norm_num), B2w_fst_3, seq5A_c1, seq5B_c1]
  exact rotD_e2e3_ne3_pi4

theorem B1w_snd_3 : B1w.2 3 = ![0, -(Real.sqrt 2 / 2), -(Real.sqrt 2 / 2)] := by
  simp only [B1w, seq_step_snd]
  rw [if_pos (by norm_num), adj_angle_c2_1, B2w_fst_lt 1 (by norm_num),
    B2w_snd_lt 1 (by norm_num), B2w_snd_3, seq5A_c1, seq5B_c1]
  exact rotD_e2e3_ne2_pi4

theorem B0w_fst_0 : B0w.1 0 = seq5A 0 := by
  simp only [B0w, seq_step_fst]
  rw [if_neg (by omega)]
  exact B1w_fst_lt 0 (by norm_num)

theorem B0w_snd_0 : B0w.2 0 = seq5B 0 := by
  simp only [B0w, seq_step_snd]
  rw [if_neg (by omega)]
  exact B1w_snd_lt 0 (by norm_num)

theorem B0w_fst_1 : B0w.1 1 = seq5A 1 := by
  simp only [B0w, seq_step_fst]
  rw [if_pos (by norm_num), adj_angle_c2_0, B1w_fst_lt 1 (by norm_num)]
  exact rotate_direction_zero _ _ _ (seq5A_unit 1 (by norm_num))

theorem B0w_snd_1 : B0w.2 1 = seq5B 1 := by
  simp only [B0w, seq_step_snd]
  rw [if_pos (by norm_num), adj_angle_c2_0, B1w_snd_lt 1 (by norm_num)]
  exact rotate_direction_zero _ _ _ (seq5B_unit 1 (by norm_num))

theorem B0w_fst_2 : B0w.1 2 = ![0, -(Real.sqrt 2 / 2), Real.sqrt 2 / 2] := by
  simp only [B0w, seq_step_fst]
  rw [if_pos (by norm_num), adj_angle_c2_0, B1w_fst_2]
  exact rotate_direction_zero _ _ _ unit_nss

theorem B0w_snd_2 : B0w.2 2 = ![-1, 0, 0] := by
  simp only [B0w, seq_step_snd]
  rw [if_pos (by norm_num), adj_angle_c2_0, B1w_snd_2]
  exact rotate_direction_zero _ _ _ unit_ne1

theorem B0w_fst_3 : B0w.1 3 = ![0, Real.sqrt 2 / 2, -(Real.sqrt 2 / 2)] := by
  simp only [B0w, seq_step_fst]
  rw [if_pos (by norm_num), adj_angle_c2_0, B1w_fst_3]
  exact rotate_direction_zero _ _ _ unit_sns

theorem B0w_snd_3 : B0w.2 3 = ![0, -(Real.sqrt 2 / 2), -(Real.sqrt 2 / 2)] := by
  simp only [B0w, seq_step_snd]
  rw [if_pos (by norm_num), adj_angle_c2_0, B1w_snd_3]
  exact rotate_direction_zero _ _ _ unit_nsns

/-! ## The two chain evaluations -/

theorem rotate_seq5_full :
    (⟨4, seq5A, seq5B, seq5angles⟩ : VectorRotationSequence 3).rotate ![1, 0, 0] 1
      = ![0, -1, 0] := by
  have h1 : (⟨4, seq5A, seq5B, seq5angles⟩ : VectorRotationSequence 3).rotate
        ![1, 0, 0] 1
      = (⟨4, seq5A, seq5B, seq5angles⟩ : VectorRotationSequence 3).rotate_weighted
        ![1, 0, 0] onehot3 := rfl
  rw [h1, rotate_weighted_four _ ![1, 0, 0] onehot3 cum_onehot seq5angles seq5A
    seq5B B0full rfl rfl rfl rfl rfl rfl]
  have happ : ∀ i < 4, seq5angles i * cum_onehot i = Real.pi / 2 := by
    intro i hi
    rw [seq5angles_eval i hi, cum_onehot_eval i hi, mul_one]
  rw [happ 0 (by norm_num), happ 1 (by norm_num), happ 2 (by norm_num),
    happ 3 (by norm_num), B0full_fst 0 (by norm_num), B0full_snd 0 (by norm_num),
    B0full_fst 1 (by norm_num), B0full_snd 1 (by norm_num),
    B0full_fst 2 (by norm_num), B0full_snd 2 (by norm_num),
    B0full_fst 3 (by norm_num), B0full_snd 3 (by norm_num),
    seq5A_c0, seq5B_c0, seq5A_c1, seq5B_c1, seq5A_c2, seq5B_c2, seq5A_c3, seq5B_c3,
    rotD_e1e2_e1_pi2, rotD_e2e3_e2_pi2, rotD_e3ne1_e3_pi2, rotD_ne1ne2_ne1_pi2]

theorem rotate_seq5_weighted :
    (⟨4, seq5A, seq5B, seq5angles⟩ : VectorRotationSequence 3).rotate_weighted
        ![1, 0, 0] c2weights
      = fun i => ![0, 1, 1] i / Real.sqrt 2 := by
  rw [rotate_weighted_four _ ![1, 0, 0] c2weights cum_c2 seq5angles seq5A seq5B
    B0w rfl rfl rfl rfl rfl rfl]
  have ha0 : seq5angles 0 * cum_c2 0 = Real.pi / 2 := by
    rw [seq5angles_eval 0 (by norm_num), cum_c2_eval.1, mul_one]
  have ha1 : seq5angles 1 * cum_c2 1 = Real.pi / 4 := by
    rw [seq5angles_eval 1 (by norm_num), cum_c2_eval.2.1]
    ring
  have ha2 : seq5angles 2 * cum_c2 2 = 0 := by
    rw [seq5angles_eval 2 (by norm_num), cum_c2_eval.2.2.1, mul_zero]
  have ha3 : seq5angles 3 * cum_c2 3 = 0 := by
    rw [seq5angles_eval 3 (by norm_num), cum_c2_eval.2.2.2, mul_zero]
  rw [ha0, ha1, ha2, ha3, B0w_fst_0, B0w_snd_0, B0w_fst_1, B0w_snd_1, B0w_fst_2,
    B0w_snd_2, B0w_fst_3, B0w_snd_3, seq5A_c0, seq5B_c0, seq5A_c1, seq5B_c1,
    rotD_e1e2_e1_pi2, rotD_e2e3_e2_pi4,
    rotate_direction_zero _ _ _ unit_pss, rotate_direction_zero _ _ _ unit_pss]
  have hne : Real.sqrt 2 ≠ 0 := by positivity
  funext i
  fin_cases i
  · norm_num
  · show Real.sqrt 2 / 2 = 1 / Real.sqrt 2
    rw [div_eq_div_iff (by norm_num) hne]
    linear_combination sqrt2_mul_self
  · show Real.sqrt 2 / 2 = 1 / Real.sqrt 2
    rw [div_eq_div_iff (by norm_num) hne]
    linear_combination sqrt2_mul_self

/-- C2: for the `VectorRotationSequence` built from the five unit directions
`[1,0,0], [0,1,0], [0,0,1], [-1,0,0], [0,-1,0]` (columns, in this order),
`rotate(direction=[1,0,0])` returns `[0,-1,0]`, and
`rotate_weighted(direction=[1,0,0], weights=[0.5,0.5,0,0])` returns
`[0,1,1]/√2`. -/
theorem c2_weighted_chain_interpolation :
    (VectorRotationSequence.fromVectors 3 5 seq5).map
        (fun S => S.rotate ![1, 0, 0] 1) = some ![0, -1, 0] ∧
      (VectorRotationSequence.fromVectors 3 5 seq5).map
        (fun S => S.rotate_weighted ![1, 0, 0] c2weights)
          = some (fun i => ![0, 1, 1] i / Real.sqrt 2) := by
  rw [fromVectors_seq5]
  simp only [Option.map_some']
  exact ⟨congrArg some rotate_seq5_full, congrArg some rotate_seq5_weighted⟩
